import Mathlib

/-!
Verification development for the rustic-canvas shared-resource pool.

The source program (src/src/main.rs) keeps a pool of named, countable
resources (`SharedResources`), withdraws resources one name at a time
(`take_out_resources`), and records each actor's grant in an append-only
registry (`ArtistToolRegistry::tool_registry`).  We embed that program
shallowly: the pool's tool list is a `List (String × Nat)`, the usize
counters are `Nat` with the possible subtraction underflow modelled
explicitly by a checked variant returning `Option`, the mutex around the
pool is modelled by a `lockOk : Bool` outcome, and the wall-clock
timestamp by an explicit `Nat` argument.
-/

set_option autoImplicit false

/-- `const TOTAL_ARTISTS: usize = 1;` -/
def TOTAL_ARTISTS : Nat := 1

/-- `const TOTAL_ITEMS: usize = 10;` -/
def TOTAL_ITEMS : Nat := 10

/-- `const TOTAL_WEIGHT_KG: usize = 10;` -/
def TOTAL_WEIGHT_KG : Nat := 10

/-- `const MIN_REQUIRED_TOOLS: usize = 2;` -/
def MIN_REQUIRED_TOOLS : Nat := 2

/-- `const MAX_ALLOWED_TOOLS: usize = 5;` -/
def MAX_ALLOWED_TOOLS : Nat := 5

/-- `struct SharedResources { tools: Vec<(String, usize)>, paints: Vec<(String, usize)> }` -/
structure SharedResources where
  tools : List (String × Nat)
  paints : List (String × Nat)
deriving Repr, DecidableEq

/-- `SharedResources::default()`: ten tools with stock `TOTAL_ITEMS` each and
ten paints with stock `TOTAL_WEIGHT_KG` each. -/
def SharedResources.default : SharedResources where
  tools :=
    [ ("brush", TOTAL_ITEMS), ("palette", TOTAL_ITEMS), ("canvas", TOTAL_ITEMS),
      ("eraser", TOTAL_ITEMS), ("sponges", TOTAL_ITEMS), ("roller", TOTAL_ITEMS),
      ("sculpting tool", TOTAL_ITEMS), ("water container", TOTAL_ITEMS),
      ("rags", TOTAL_ITEMS), ("tape", TOTAL_ITEMS) ]
  paints :=
    [ ("red", TOTAL_WEIGHT_KG), ("blue", TOTAL_WEIGHT_KG), ("green", TOTAL_WEIGHT_KG),
      ("yellow", TOTAL_WEIGHT_KG), ("black", TOTAL_WEIGHT_KG), ("white", TOTAL_WEIGHT_KG),
      ("purple", TOTAL_WEIGHT_KG), ("orange", TOTAL_WEIGHT_KG), ("pink", TOTAL_WEIGHT_KG),
      ("brown", TOTAL_WEIGHT_KG) ]

/-- The count recorded for `n` in a tool list: `snd` of the first entry whose
name equals `n` (mirrors `self.tools.iter().position(|(name, _)| *name == tool)`
followed by a read), `none` when no entry matches. -/
def countOf : List (String × Nat) → String → Option Nat
  | [], _ => none
  | (m, q) :: rest, n => if m = n then some q else countOf rest n

/-- One iteration of the `for tool in tools` loop of `take_out_resources`:
find the first entry whose name matches, decrement its count, and remove the
entry when the count reaches zero; leave the list unchanged when no entry
matches (the code only prints a warning there).  `Nat` subtraction hides the
usize underflow of `*quantity -= 1`; `takeOutOneChecked` models it. -/
def takeOutOne : List (String × Nat) → String → List (String × Nat)
  | [], _ => []
  | (m, q) :: rest, n =>
    if m = n then
      if q - 1 = 0 then rest else (m, q - 1) :: rest
    else (m, q) :: takeOutOne rest n

/-- The whole loop of `take_out_resources` over a tool list. -/
def takeOutList : List (String × Nat) → List String → List (String × Nat)
  | ts, [] => ts
  | ts, n :: rest => takeOutList (takeOutOne ts n) rest

/-- `SharedResources::take_out_resources(&mut self, tools: Vec<String>)`:
runs the withdrawal loop on the `tools` field; `paints` is untouched. -/
def SharedResources.take_out_resources (s : SharedResources) (names : List String) :
    SharedResources :=
  { s with tools := takeOutList s.tools names }

/-- Panic-aware variant of one loop iteration: `*quantity -= 1` on a `usize`
panics when the quantity is `0`, which we model as `none`. -/
def takeOutOneChecked : List (String × Nat) → String → Option (List (String × Nat))
  | [], _ => some []
  | (m, q) :: rest, n =>
    if m = n then
      if q = 0 then none
      else if q - 1 = 0 then some rest else some ((m, q - 1) :: rest)
    else (takeOutOneChecked rest n).map (fun r => (m, q) :: r)

/-- Panic-aware variant of the whole withdrawal loop. -/
def takeOutListChecked : List (String × Nat) → List String → Option (List (String × Nat))
  | ts, [] => some ts
  | ts, n :: rest =>
    match takeOutOneChecked ts n with
    | some ts2 => takeOutListChecked ts2 rest
    | none => none

/-- The withdrawal loop, additionally counting how many of the requested
names were found (i.e. how many loop iterations actually decremented). -/
def takeOutRun : List (String × Nat) → List String → List (String × Nat) × Nat
  | ts, [] => (ts, 0)
  | ts, n :: rest =>
    let r := takeOutRun (takeOutOne ts n) rest
    (r.1, (if (countOf ts n).isSome then 1 else 0) + r.2)

/-- `enum State { TakeOut, Return, ... }` from the source. -/
inductive State where
  | TakeOut | Return | Fill | Change | New | Retire | Damage
  | Lost | Audit | Reserved | Repair | Expired | Sold
deriving Repr, DecidableEq

/-- `struct ArtistToolPreferences` with the `DateTime<Utc>` timestamp
modelled as a `Nat` tick. -/
structure ArtistToolPreferences where
  artist_id : Nat
  preferred_tools : List String
  datetime : Option Nat
  state : Option State
deriving Repr, DecidableEq

/-- `struct ArtistToolRegistry`: the append-only log plus the shared pool
(the `Arc<Mutex<..>>` indirection is flattened into the state). -/
structure ArtistToolRegistry where
  artist_tool_preferences : List ArtistToolPreferences
  shared_resources : SharedResources
deriving Repr, DecidableEq

/-- `ArtistToolRegistry::tool_registry(&mut self, id, tools)`: push a record
with the given id, the given tool list, the current timestamp (`now`,
standing for `Utc::now()`) and state `TakeOut`; then, if the pool mutex is
acquired (`lockOk`, standing for the `Ok` branch of `.lock()`), withdraw the
tools; otherwise only print an error, leaving the pool untouched. -/
def tool_registry (r : ArtistToolRegistry) (id : Nat) (tools : List String)
    (now : Nat) (lockOk : Bool) : ArtistToolRegistry :=
  let r1 : ArtistToolRegistry :=
    { r with artist_tool_preferences :=
        r.artist_tool_preferences ++
          [{ artist_id := id, preferred_tools := tools,
             datetime := some now, state := some State.TakeOut }] }
  if lockOk then
    { r1 with shared_resources := r1.shared_resources.take_out_resources tools }
  else r1

/-- Contract of `rand`'s `SliceRandom::choose_multiple(rng, k)` as used on
line 152, expressed on the list of chosen indices: the indices are pairwise
distinct, in range, and exactly `min k len` many (when the slice has fewer
than `k` elements, the whole slice is returned). -/
def chooseMultipleSpec (tools : List (String × Nat)) (k : Nat) (sel : List Nat) : Prop :=
  sel.Nodup ∧ (∀ i ∈ sel, i < tools.length) ∧ sel.length = min k tools.length

instance (tools : List (String × Nat)) (k : Nat) (sel : List Nat) :
    Decidable (chooseMultipleSpec tools k sel) := by
  unfold chooseMultipleSpec; infer_instance

/-- `fn tools_usage(id, tools) -> (usize, Vec<String>)`, with the two random
draws made explicit: `k` is the value of `rng.gen_range(MIN..=MAX)` and
`sel` the index list produced by `choose_multiple` (constrained by
`chooseMultipleSpec`).  The function returns the id together with the names
of the selected entries. -/
def tools_usage (id : Nat) (tools : List (String × Nat)) (k : Nat) (sel : List Nat) :
    Nat × List String :=
  let _ := k
  (id, sel.map (fun i => (tools.getD i ("", 0)).1))

/-- The pool's key set: names of the entries, in order. -/
def keysNodup (ts : List (String × Nat)) : Prop := (ts.map Prod.fst).Nodup

instance (ts : List (String × Nat)) : Decidable (keysNodup ts) := by
  unfold keysNodup; infer_instance

/-- The pool invariant of §3: every entry present has count at least 1
(absence means exhausted; counts are naturally non-negative). -/
def PoolInv (ts : List (String × Nat)) : Prop := ∀ p ∈ ts, 1 ≤ p.2

instance (ts : List (String × Nat)) : Decidable (PoolInv ts) := by
  unfold PoolInv; infer_instance

/-! ### Helper lemmas about the withdrawal loop -/

theorem countOf_eq_none_iff (ts : List (String × Nat)) (n : String) :
    countOf ts n = none ↔ n ∉ ts.map Prod.fst := by
  induction ts with
  | nil => simp [countOf]
  | cons p rest ih =>
    obtain ⟨m, q⟩ := p
    by_cases h : m = n
    · subst h; simp [countOf]
    · have h2 : ¬n = m := fun e => h e.symm
      simp [countOf, h, h2, ih]

theorem takeOutOne_of_countOf_none (ts : List (String × Nat)) (n : String)
    (h : countOf ts n = none) : takeOutOne ts n = ts := by
  induction ts with
  | nil => rfl
  | cons p rest ih =>
    obtain ⟨m, q⟩ := p
    by_cases hmn : m = n
    · simp [countOf, hmn] at h
    · simp [countOf, hmn] at h
      simp [takeOutOne, hmn, ih h]

theorem takeOutOne_keys_sublist (ts : List (String × Nat)) (n : String) :
    List.Sublist ((takeOutOne ts n).map Prod.fst) (ts.map Prod.fst) := by
  induction ts with
  | nil => simp [takeOutOne]
  | cons p rest ih =>
    obtain ⟨m, q⟩ := p
    by_cases hmn : m = n
    · by_cases hq : q - 1 = 0
      · simp only [takeOutOne, hmn, if_pos rfl, hq, if_pos rfl, List.map_cons]
        exact (List.sublist_cons_self _ _)
      · simp [takeOutOne, hmn, hq]
    · simp only [takeOutOne, if_neg hmn, List.map_cons]
      exact ih.cons₂ m

theorem keysNodup_takeOutOne (ts : List (String × Nat)) (n : String)
    (h : keysNodup ts) : keysNodup (takeOutOne ts n) :=
  List.Nodup.sublist (takeOutOne_keys_sublist ts n) h

theorem poolInv_takeOutOne (ts : List (String × Nat)) (n : String)
    (h : PoolInv ts) : PoolInv (takeOutOne ts n) := by
  induction ts with
  | nil => exact h
  | cons p rest ih =>
    obtain ⟨m, q⟩ := p
    have hrest : PoolInv rest := fun x hx => h x (List.mem_cons_of_mem _ hx)
    intro x hx
    by_cases hmn : m = n
    · by_cases hq : q - 1 = 0
      · exact hrest x (by simpa [takeOutOne, hmn, hq] using hx)
      · simp only [takeOutOne] at hx
        rw [if_pos hmn, if_neg hq] at hx
        rcases List.mem_cons.mp hx with h1 | h1
        · subst h1; exact Nat.one_le_iff_ne_zero.mpr hq
        · exact hrest x h1
    · simp only [takeOutOne] at hx
      rw [if_neg hmn] at hx
      rcases List.mem_cons.mp hx with h1 | h1
      · subst h1; exact h (m, q) (List.mem_cons_self _ _)
      · exact ih hrest x h1

theorem poolInv_takeOutList (ts : List (String × Nat)) (req : List String)
    (h : PoolInv ts) : PoolInv (takeOutList ts req) := by
  induction req generalizing ts with
  | nil => exact h
  | cons n rest ih => exact ih _ (poolInv_takeOutOne ts n h)

theorem keysNodup_takeOutList (ts : List (String × Nat)) (req : List String)
    (h : keysNodup ts) : keysNodup (takeOutList ts req) := by
  induction req generalizing ts with
  | nil => exact h
  | cons n rest ih => exact ih _ (keysNodup_takeOutOne ts n h)

theorem countOf_takeOutOne_self (ts : List (String × Nat)) (n : String) (C : Nat)
    (hnd : keysNodup ts) (h : countOf ts n = some C) :
    countOf (takeOutOne ts n) n = if C - 1 = 0 then none else some (C - 1) := by
  induction ts with
  | nil => simp [countOf] at h
  | cons p rest ih =>
    obtain ⟨m, q⟩ := p
    have hnd2 : keysNodup rest := by
      have := hnd
      simp only [keysNodup, List.map_cons, List.nodup_cons] at this
      exact this.2
    by_cases hmn : m = n
    · have hq : q = C := by simpa [countOf, hmn] using h
      subst hq
      have hnotmem : n ∉ rest.map Prod.fst := by
        have := hnd
        simp only [keysNodup, List.map_cons, List.nodup_cons] at this
        simpa [hmn] using this.1
      by_cases hq0 : q - 1 = 0
      · simp only [takeOutOne, hmn, if_pos rfl, hq0, if_pos rfl]
        exact (countOf_eq_none_iff rest n).mpr hnotmem
      · simp [takeOutOne, hmn, hq0, countOf]
    · have h2 : countOf rest n = some C := by simpa [countOf, hmn] using h
      simpa [takeOutOne, hmn, countOf] using ih hnd2 h2

theorem takeOutOneChecked_eq (ts : List (String × Nat)) (n : String)
    (h : PoolInv ts) : takeOutOneChecked ts n = some (takeOutOne ts n) := by
  induction ts with
  | nil => rfl
  | cons p rest ih =>
    obtain ⟨m, q⟩ := p
    have hrest : PoolInv rest := fun x hx => h x (List.mem_cons_of_mem _ hx)
    by_cases hmn : m = n
    · have hq : q ≠ 0 := Nat.one_le_iff_ne_zero.mp (h (m, q) (List.mem_cons_self _ _))
      by_cases hq0 : q - 1 = 0
      · simp [takeOutOneChecked, takeOutOne, hmn, hq, hq0]
      · simp [takeOutOneChecked, takeOutOne, hmn, hq, hq0]
    · simp [takeOutOneChecked, takeOutOne, hmn, ih hrest]

theorem takeOutListChecked_eq (ts : List (String × Nat)) (req : List String)
    (h : PoolInv ts) : takeOutListChecked ts req = some (takeOutList ts req) := by
  induction req generalizing ts with
  | nil => rfl
  | cons n rest ih =>
    simp only [takeOutListChecked, takeOutList, takeOutOneChecked_eq ts n h]
    exact ih _ (poolInv_takeOutOne ts n h)

theorem takeOutRun_fst (ts : List (String × Nat)) (req : List String) :
    (takeOutRun ts req).1 = takeOutList ts req := by
  induction req generalizing ts with
  | nil => rfl
  | cons n rest ih => simpa [takeOutRun, takeOutList] using ih (takeOutOne ts n)

theorem takeOutList_absent (ts : List (String × Nat)) (n : String) (k : Nat)
    (h : countOf ts n = none) : takeOutList ts (List.replicate k n) = ts := by
  induction k with
  | zero => rfl
  | succ k ih => simpa [List.replicate_succ, takeOutList, takeOutOne_of_countOf_none ts n h] using ih

theorem takeOutRun_absent (ts : List (String × Nat)) (n : String) (k : Nat)
    (h : countOf ts n = none) : takeOutRun ts (List.replicate k n) = (ts, 0) := by
  induction k with
  | zero => rfl
  | succ k ih =>
    simpa [List.replicate_succ, takeOutRun, takeOutOne_of_countOf_none ts n h, h] using ih

theorem takeOutList_append (ts : List (String × Nat)) (a b : List String) :
    takeOutList ts (a ++ b) = takeOutList (takeOutList ts a) b := by
  induction a generalizing ts with
  | nil => rfl
  | cons n rest ih => simpa [takeOutList] using ih (takeOutOne ts n)

theorem takeOutRun_replicate (k : Nat) :
    ∀ (ts : List (String × Nat)) (n : String) (S : Nat),
      keysNodup ts → countOf ts n = some S → 1 ≤ S →
      (takeOutRun ts (List.replicate k n)).2 = min k S ∧
      countOf (takeOutRun ts (List.replicate k n)).1 n =
        (if k < S then some (S - k) else none) := by
  induction k with
  | zero =>
    intro ts n S hnd hS hS1
    refine ⟨by simp [takeOutRun], ?_⟩
    simp only [List.replicate, takeOutRun, hS]
    rw [if_pos (show 0 < S by omega)]
    simp
  | succ k ih =>
    intro ts n S hnd hS hS1
    have hco : countOf (takeOutOne ts n) n = if S - 1 = 0 then none else some (S - 1) :=
      countOf_takeOutOne_self ts n S hnd hS
    have hnd2 : keysNodup (takeOutOne ts n) := keysNodup_takeOutOne ts n hnd
    by_cases hS2 : S = 1
    · subst hS2
      have hnone : countOf (takeOutOne ts n) n = none := by simpa using hco
      have hrun : takeOutRun (takeOutOne ts n) (List.replicate k n) = (takeOutOne ts n, 0) :=
        takeOutRun_absent _ n k hnone
      constructor
      · simp only [List.replicate_succ, takeOutRun, hrun, hS]
        simp
      · simp only [List.replicate_succ, takeOutRun, hrun]
        rw [hnone, if_neg (by omega)]
    · have hco2 : countOf (takeOutOne ts n) n = some (S - 1) := by
        rw [hco, if_neg (by omega)]
      obtain ⟨ih1, ih2⟩ := ih (takeOutOne ts n) n (S - 1) hnd2 hco2 (by omega)
      constructor
      · simp only [List.replicate_succ, takeOutRun, ih1, hS]
        simp
        omega
      · simp only [List.replicate_succ, takeOutRun]
        rw [ih2]
        split_ifs with h1 h2
        · congr 1
          omega
        · omega
        · omega
        · rfl

theorem selection_names_nodup (tools : List (String × Nat)) (sel : List Nat)
    (hnd : keysNodup tools) (hsel : sel.Nodup) (hlt : ∀ i ∈ sel, i < tools.length) :
    (sel.map (fun i => (tools.getD i ("", 0)).1)).Nodup := by
  refine List.Nodup.map_on ?_ hsel
  intro i hi j hj hij
  have hi2 : i < tools.length := hlt i hi
  have hj2 : j < tools.length := hlt j hj
  rw [List.getD_eq_getElem _ _ hi2, List.getD_eq_getElem _ _ hj2] at hij
  have hi3 : i < (tools.map Prod.fst).length := by simpa using hi2
  have hj3 : j < (tools.map Prod.fst).length := by simpa using hj2
  have hkey : (tools.map Prod.fst)[i] = (tools.map Prod.fst)[j] := by
    rw [List.getElem_map, List.getElem_map]
    exact hij
  exact (List.Nodup.getElem_inj_iff hnd).mp hkey

theorem selection_names_mem (tools : List (String × Nat)) (sel : List Nat)
    (hlt : ∀ i ∈ sel, i < tools.length) :
    ∀ nm ∈ sel.map (fun i => (tools.getD i ("", 0)).1), ∃ q, (nm, q) ∈ tools := by
  intro nm hnm
  rcases List.mem_map.mp hnm with ⟨i, hi, hieq⟩
  have hi2 : i < tools.length := hlt i hi
  refine ⟨(tools[i]).2, ?_⟩
  have : (nm, (tools[i]).2) = tools[i] := by
    rw [← hieq, List.getD_eq_getElem _ _ hi2]
  rw [this]
  exact List.getElem_mem hi2

theorem countOf_pos_of_poolInv (ts : List (String × Nat)) (n : String) (S : Nat)
    (hinv : PoolInv ts) (h : countOf ts n = some S) : 1 ≤ S := by
  induction ts with
  | nil => simp [countOf] at h
  | cons p rest ih =>
    obtain ⟨m, q⟩ := p
    by_cases hmn : m = n
    · have hq : q = S := by simpa [countOf, hmn] using h
      subst hq
      exact hinv (m, q) (List.mem_cons_self _ _)
    · exact ih (fun x hx => hinv x (List.mem_cons_of_mem _ hx))
        (by simpa [countOf, hmn] using h)

/-! ### Claim theorems -/

/-- Claim C1: for every pool whose tool names are distinct and that holds the
requested name with count `C > 0`, one withdrawal of that name leaves the
name with count `C - 1` when `C - 1 > 0` and removes the entry entirely when
`C - 1 = 0`. -/
theorem c1_withdrawal_decrements_or_removes (s : SharedResources) (name : String) (C : Nat)
    (hnd : keysNodup s.tools) (hC : countOf s.tools name = some C) (hpos : 0 < C) :
    countOf (s.take_out_resources [name]).tools name =
      (if 0 < C - 1 then some (C - 1) else none) := by
  have h := countOf_takeOutOne_self s.tools name C hnd hC
  show countOf (takeOutOne s.tools name) name = _
  rw [h]
  by_cases h0 : C - 1 = 0
  · rw [if_pos h0, if_neg (by omega)]
  · rw [if_neg h0, if_pos (by omega)]

theorem c1_witness :
    countOf (SharedResources.default.take_out_resources ["brush"]).tools "brush" =
      (if 0 < 10 - 1 then some (10 - 1) else none) :=
  c1_withdrawal_decrements_or_removes SharedResources.default "brush" 10
    (by decide) (by decide) (by decide)

/-- Claim C2: `tool_registry` always appends exactly one record to the log,
carrying the given actor id, the given resource sequence, a non-null
(`some`) timestamp and lifecycle state `TakeOut`, whatever the lock
outcome. -/
theorem c2_registration_always_logs (r : ArtistToolRegistry) (id : Nat)
    (tools : List String) (now : Nat) (lockOk : Bool) :
    (tool_registry r id tools now lockOk).artist_tool_preferences =
      r.artist_tool_preferences ++
        [{ artist_id := id, preferred_tools := tools,
           datetime := some now, state := some State.TakeOut }] ∧
    (tool_registry r id tools now lockOk).artist_tool_preferences.length =
      r.artist_tool_preferences.length + 1 := by
  cases lockOk <;> simp [tool_registry]

/-- Claim C3: the pool invariant — every entry present has count at least 1,
so no zero-count entry is ever stored — holds for the initial pool and is
preserved by every withdrawal. -/
theorem c3_pool_invariant_preserved :
    PoolInv SharedResources.default.tools ∧
    ∀ (s : SharedResources) (req : List String),
      PoolInv s.tools → PoolInv (s.take_out_resources req).tools := by
  constructor
  · decide
  · intro s req h
    exact poolInv_takeOutList s.tools req h

theorem c3_witness :
    PoolInv (SharedResources.default.take_out_resources ["brush", "tape"]).tools :=
  c3_pool_invariant_preserved.2 SharedResources.default ["brush", "tape"] (by decide)

/-- Claim C4: withdrawing a name that is absent from the pool leaves the pool
state completely unchanged, and processing continues with the remaining
requested names in order. -/
theorem c4_absent_name_noop (s : SharedResources) (name : String) (rest : List String)
    (h : countOf s.tools name = none) :
    s.take_out_resources [name] = s ∧
    s.take_out_resources (name :: rest) = s.take_out_resources rest := by
  have h1 : takeOutOne s.tools name = s.tools := takeOutOne_of_countOf_none s.tools name h
  constructor
  · show SharedResources.mk (takeOutOne s.tools name) s.paints = s
    rw [h1]
  · show SharedResources.mk (takeOutList (takeOutOne s.tools name) rest) s.paints =
      SharedResources.mk (takeOutList s.tools rest) s.paints
    rw [h1]

theorem c4_witness :
    SharedResources.default.take_out_resources ["hammer"] = SharedResources.default ∧
    SharedResources.default.take_out_resources ("hammer" :: ["brush"]) =
      SharedResources.default.take_out_resources ["brush"] :=
  c4_absent_name_noop SharedResources.default "hammer" ["brush"] (by decide)

/-- Claim C5: the log append of `tool_registry` does not depend on the pool
lock outcome (it happens before the pool mutation is attempted), and when
the lock cannot be acquired the appended record remains while the pool is
left unchanged. -/
theorem c5_log_append_precedes_pool_mutation (r : ArtistToolRegistry) (id : Nat)
    (tools : List String) (now : Nat) :
    (∀ lockOk, (tool_registry r id tools now lockOk).artist_tool_preferences =
        r.artist_tool_preferences ++
          [{ artist_id := id, preferred_tools := tools,
             datetime := some now, state := some State.TakeOut }]) ∧
    (tool_registry r id tools now false).shared_resources = r.shared_resources := by
  constructor
  · intro lockOk
    cases lockOk <;> simp [tool_registry]
  · rfl

/-- Claim C6 fails as stated: on a snapshot holding a single tool, a call
that draws `k = 2` from `gen_range(MIN..=MAX)` makes `choose_multiple`
return only one element, so the number of chosen names falls below
`MIN_REQUIRED_TOOLS`. -/
theorem c6_counterexample :
    chooseMultipleSpec [("brush", 10)] MIN_REQUIRED_TOOLS [0] ∧
    (tools_usage 1 [("brush", 10)] MIN_REQUIRED_TOOLS [0]).2.length <
      MIN_REQUIRED_TOOLS := by
  decide

/-- Claim C6, amended: the number of chosen names `K` equals
`min k (snapshot size)` where `k` is the drawn bound with
`MIN_REQUIRED_TOOLS ≤ k ≤ MAX_ALLOWED_TOOLS`; hence
`MIN_REQUIRED_TOOLS ≤ K ≤ MAX_ALLOWED_TOOLS` holds whenever the snapshot
holds at least `MIN_REQUIRED_TOOLS` entries, and the chosen names are
pairwise distinct (given distinct snapshot names) and all present in the
snapshot. -/
theorem c6_selection_bounds (id k : Nat) (tools : List (String × Nat)) (sel : List Nat)
    (hmin : MIN_REQUIRED_TOOLS ≤ k) (hmax : k ≤ MAX_ALLOWED_TOOLS)
    (hnd : keysNodup tools) (hspec : chooseMultipleSpec tools k sel) :
    (tools_usage id tools k sel).2.length = min k tools.length ∧
    (tools_usage id tools k sel).2.Nodup ∧
    (∀ nm ∈ (tools_usage id tools k sel).2, ∃ q, (nm, q) ∈ tools) ∧
    (MIN_REQUIRED_TOOLS ≤ tools.length →
      MIN_REQUIRED_TOOLS ≤ (tools_usage id tools k sel).2.length ∧
      (tools_usage id tools k sel).2.length ≤ MAX_ALLOWED_TOOLS) := by
  obtain ⟨hsel, hlt, hlen⟩ := hspec
  have hlen2 : (tools_usage id tools k sel).2.length = min k tools.length := by
    simpa [tools_usage] using hlen
  refine ⟨hlen2, ?_, ?_, ?_⟩
  · exact selection_names_nodup tools sel hnd hsel hlt
  · exact selection_names_mem tools sel hlt
  · intro hge
    rw [hlen2]
    omega

theorem c6_witness :
    MIN_REQUIRED_TOOLS ≤ (tools_usage 1 SharedResources.default.tools 3 [0, 2, 4]).2.length ∧
    (tools_usage 1 SharedResources.default.tools 3 [0, 2, 4]).2.length ≤ MAX_ALLOWED_TOOLS ∧
    (tools_usage 1 SharedResources.default.tools 3 [0, 2, 4]).2.Nodup :=
  ⟨((c6_selection_bounds 1 3 SharedResources.default.tools [0, 2, 4]
      (by decide) (by decide) (by decide) (by decide)).2.2.2 (by decide)).1,
   ((c6_selection_bounds 1 3 SharedResources.default.tools [0, 2, 4]
      (by decide) (by decide) (by decide) (by decide)).2.2.2 (by decide)).2,
   (c6_selection_bounds 1 3 SharedResources.default.tools [0, 2, 4]
      (by decide) (by decide) (by decide) (by decide)).2.1⟩

/-- Claim C7: under the pool invariant the `usize` decrement of
`take_out_resources` never underflows — the panic-aware run agrees with the
total one on every request list — and an absent name is handled as
not-found, leaving the pool unchanged rather than underflowing. -/
theorem c7_no_underflow (s : SharedResources) (req : List String)
    (hinv : PoolInv s.tools) :
    takeOutListChecked s.tools req = some (s.take_out_resources req).tools ∧
    ∀ name, countOf s.tools name = none →
      takeOutOneChecked s.tools name = some s.tools := by
  constructor
  · exact takeOutListChecked_eq s.tools req hinv
  · intro name h
    rw [takeOutOneChecked_eq s.tools name hinv, takeOutOne_of_countOf_none s.tools name h]

theorem c7_witness :
    takeOutListChecked SharedResources.default.tools ["brush", "hammer"] =
      some (SharedResources.default.take_out_resources ["brush", "hammer"]).tools ∧
    takeOutOneChecked SharedResources.default.tools "hammer" =
      some SharedResources.default.tools :=
  ⟨(c7_no_underflow SharedResources.default ["brush", "hammer"] (by decide)).1,
   (c7_no_underflow SharedResources.default ["brush", "hammer"] (by decide)).2 "hammer"
     (by decide)⟩

/-- Claim C8: withdrawals — and therefore the allocation path of
`tool_registry` — never touch the `paints` field; only `tools` is mutated. -/
theorem c8_paints_frame :
    (∀ (s : SharedResources) (req : List String),
      (s.take_out_resources req).paints = s.paints) ∧
    (∀ (r : ArtistToolRegistry) (id : Nat) (tools : List String) (now : Nat)
      (lockOk : Bool),
      (tool_registry r id tools now lockOk).shared_resources.paints =
        r.shared_resources.paints) := by
  refine ⟨fun s req => rfl, fun r id tools now lockOk => ?_⟩
  cases lockOk <;> rfl

/-- Claim C9: with all pool accesses serialized by the mutex, a concurrent
run of withdrawals of one name from stock `S` is an interleaving modelled by
`takeOutRun`; exactly `min k S` of `k` attempts succeed (no lost update),
the final count equals `max 0 (S - successes)`, and every intermediate
decrement is well defined (no underflow, hence never below zero). -/
theorem c9_concurrent_withdrawals (ts : List (String × Nat)) (name : String) (S k : Nat)
    (hnd : keysNodup ts) (hinv : PoolInv ts) (hS : countOf ts name = some S) :
    (takeOutRun ts (List.replicate k name)).2 = min k S ∧
    ((countOf (takeOutRun ts (List.replicate k name)).1 name).getD 0 : Int) =
      max 0 ((S : Int) - ((takeOutRun ts (List.replicate k name)).2 : Int)) ∧
    takeOutListChecked ts (List.replicate k name) =
      some (takeOutRun ts (List.replicate k name)).1 := by
  have hS1 : 1 ≤ S := countOf_pos_of_poolInv ts name S hinv hS
  obtain ⟨h1, h2⟩ := takeOutRun_replicate k ts name S hnd hS hS1
  refine ⟨h1, ?_, ?_⟩
  · rw [h2, h1]
    by_cases h : k < S
    · rw [if_pos h]
      simp only [Option.getD_some]
      push_cast
      omega
    · rw [if_neg h]
      simp only [Option.getD_none]
      push_cast
      omega
  · rw [takeOutRun_fst]
    exact takeOutListChecked_eq ts _ hinv

theorem c9_witness :
    (takeOutRun [("brush", 3)] (List.replicate 5 "brush")).2 = min 5 3 ∧
    ((countOf (takeOutRun [("brush", 3)] (List.replicate 5 "brush")).1 "brush").getD 0 : Int) =
      max 0 ((3 : Int) - ((takeOutRun [("brush", 3)] (List.replicate 5 "brush")).2 : Int)) ∧
    takeOutListChecked [("brush", 3)] (List.replicate 5 "brush") =
      some (takeOutRun [("brush", 3)] (List.replicate 5 "brush")).1 :=
  c9_concurrent_withdrawals [("brush", 3)] "brush" 3 5 (by decide) (by decide) (by decide)

/-- Claim C10: a request listing one name more often than its count `C`
drains the entry with its first `C` occurrences — the whole request acts
exactly like the first `C` occurrences, after which the entry is gone —
and every later occurrence is a not-found no-op; the run never panics. -/
theorem c10_overdraw_request (s : SharedResources) (name : String) (C m : Nat)
    (hnd : keysNodup s.tools) (hinv : PoolInv s.tools)
    (hC : countOf s.tools name = some C) (hm : C < m) :
    s.take_out_resources (List.replicate m name) =
      s.take_out_resources (List.replicate C name) ∧
    countOf (s.take_out_resources (List.replicate C name)).tools name = none ∧
    takeOutListChecked s.tools (List.replicate m name) =
      some (s.take_out_resources (List.replicate m name)).tools := by
  have hC1 : 1 ≤ C := countOf_pos_of_poolInv s.tools name C hinv hC
  have habs : countOf (takeOutList s.tools (List.replicate C name)) name = none := by
    have h2 := (takeOutRun_replicate C s.tools name C hnd hC hC1).2
    rw [takeOutRun_fst] at h2
    rw [h2, if_neg (lt_irrefl C)]
  refine ⟨?_, habs, ?_⟩
  · have hsplit : List.replicate m name =
        List.replicate C name ++ List.replicate (m - C) name := by
      rw [← List.replicate_add]
      congr 1
      omega
    show SharedResources.mk (takeOutList s.tools (List.replicate m name)) s.paints =
      SharedResources.mk (takeOutList s.tools (List.replicate C name)) s.paints
    rw [hsplit, takeOutList_append, takeOutList_absent _ name _ habs]
  · exact takeOutListChecked_eq s.tools _ hinv

theorem c10_witness :
    (SharedResources.mk [("brush", 2), ("tape", 5)] []).take_out_resources
        (List.replicate 4 "brush") =
      (SharedResources.mk [("brush", 2), ("tape", 5)] []).take_out_resources
        (List.replicate 2 "brush") ∧
    countOf ((SharedResources.mk [("brush", 2), ("tape", 5)] []).take_out_resources
        (List.replicate 2 "brush")).tools "brush" = none ∧
    takeOutListChecked [("brush", 2), ("tape", 5)] (List.replicate 4 "brush") =
      some ((SharedResources.mk [("brush", 2), ("tape", 5)] []).take_out_resources
        (List.replicate 4 "brush")).tools :=
  c10_overdraw_request (SharedResources.mk [("brush", 2), ("tape", 5)] []) "brush" 2 4
    (by decide) (by decide) (by decide) (by decide)
